import Mathlib

/-!
Verification of the post-retrieval pagination / date-windowing core and the
bulk delete-with-archive orchestration of the `social_scrubber` repository,
as a shallow embedding in Lean.

Timestamps are modelled as `Int` seconds of naive civil time.  Remote calls
are modelled by their observable data: a fetch run consumes a list of page
responses (the successive answers of the remote service) and records every
page request it issues; delete and archive operations are oracles passed in
as functions.
-/

/-- Timestamp as produced by `dateutil.parser.isoparse` or delivered by the
Mastodon client: a naive civil (wall-clock) reading plus, when the source
representation carried one, a UTC offset in seconds. -/
structure RawTS where
  wall : Int
  offset : Option Int
deriving DecidableEq

/-- Embeds the `Post` dataclass of `social_scrubber/platforms/base.py`
(lines 12-20).  `created_at` is the normalized naive timestamp; the open
`metadata` dict is not modelled (no claim mentions it). -/
structure Post where
  id : String
  content : String
  created_at : Int
  platform : String
  url : Option String
deriving DecidableEq

/-- Embeds the `DeletionResult` dataclass of `base.py` (lines 29-36). -/
structure DeletionResult where
  post_id : String
  success : Bool
  error : Option String := none
  archived : Bool := false
  archive_path : Option String := none
deriving DecidableEq

/-- Python truthiness of an `Optional[int]`: `None` and `0` are falsy. -/
def pyTruthyNat : Option Nat → Bool
  | none => false
  | some n => n != 0

/-- Python truthiness of an `Optional[str]`: `None` and `""` are falsy. -/
def pyTruthyStr : Option String → Bool
  | none => false
  | some s => s != ""

/-- Bluesky timestamp normalization, `bluesky.py` lines 92-95: after
`isoparse`, an offset-aware value is made naive by `replace(tzinfo=None)`,
which keeps the wall-clock reading and merely forgets the offset. -/
def bskyNormalize (t : RawTS) : Int := t.wall

/-- Mastodon timestamp normalization, `mastodon.py` lines 97-111: an
offset-aware value goes through `utctimetuple()` (conversion to UTC) and is
rebuilt as a naive datetime; a naive value is kept as is. -/
def mastNormalize (t : RawTS) : Int :=
  match t.offset with
  | some o => t.wall - o
  | none => t.wall

/-- Modelled from the spec: the instant denoted by a wire timestamp,
"converted to UTC with the offset then discarded" (spec section 4.1,
timestamp-normalization rule).  Used to compare the adapters' stored values
against the specified UTC conversion. -/
def utcInstant (t : RawTS) : Int := t.wall - t.offset.getD 0

/-- Structural splitting of a character list at a separator character,
mirroring Python `str.split(sep)` for a one-character separator (the result
is never empty; separators at the ends produce empty segments). -/
def splitOnChar (c : Char) : List Char → List (List Char)
  | [] => [[]]
  | x :: rest =>
    if x = c then [] :: splitOnChar c rest
    else
      match splitOnChar c rest with
      | [] => [[x]]
      | seg :: segs => (x :: seg) :: segs

/-- Python `s.split('/')[-1]`: the last segment of a slash-separated string
(`bluesky.py` line 116 and line 168). -/
def lastSegment (s : String) : String :=
  String.mk ((splitOnChar '/' s.data).getLastD [])

/-- One item of a Bluesky author-feed response, abstracted to the branches
the loop body of `bluesky.py` lines 82-98 distinguishes: a falsy
`feed_item.post`, a record without `created_at`, a record whose `created_at`
fails to parse, or a parsed record with its uri, text and timestamp
(`getattr(post_record, 'text', '')` is already applied, so `text` is the
content with default `""`). -/
inductive BskyItem where
  | noPost
  | noCreatedAt
  | unparsable
  | valid (uri : String) (text : String) (ts : RawTS)
deriving DecidableEq

/-- The Post produced from one Bluesky feed item, or `none` when the loop
body skips the item (`bluesky.py` lines 82-122). -/
def bskyView (handle : String) : BskyItem → Option Post
  | .noPost => none
  | .noCreatedAt => none
  | .unparsable => none
  | .valid uri text ts =>
    some { id := uri
           content := text
           created_at := bskyNormalize ts
           platform := "bluesky"
           url := some ("https://bsky.app/profile/" ++ handle ++ "/post/" ++ lastSegment uri) }

/-- Removal of HTML tags by `re.sub(r"<[^>]+>", "", content)`
(`mastodon.py` line 126): every non-overlapping `<...>` block with a
non-empty inside is dropped, scanning left to right.  The first argument is
fuel (call with the length of the list); the recursion consumes at least one
character of fuel per step, so fuel equal to the length never runs out. -/
def stripHtmlAux : Nat → List Char → List Char
  | 0, cs => cs
  | _ + 1, [] => []
  | fuel + 1, c :: rest =>
    if c = '<' then
      match rest.dropWhile (· ≠ '>') with
      | '>' :: rem =>
        if (rest.takeWhile (· ≠ '>')).isEmpty then c :: stripHtmlAux fuel rest
        else stripHtmlAux fuel rem
      | _ => c :: stripHtmlAux fuel rest
    else c :: stripHtmlAux fuel rest

/-- String-level HTML stripping (`mastodon.py` line 126). -/
def stripHtml (s : String) : String :=
  String.mk (stripHtmlAux s.data.length s.data)

/-- The `created_at` field of a Mastodon status as the loop body sees it
(`mastodon.py` lines 96-116): either a value whose parsing raises (the item
is skipped), or a parsed structured time value. -/
inductive MastCreated where
  | unparsable
  | parsed (ts : RawTS)
deriving DecidableEq

/-- One status of a Mastodon `account_statuses` response, restricted to the
fields the loop reads (engagement-count metadata is not modelled). -/
structure MastStatus where
  id : Nat
  content : String
  url : Option String
  created : MastCreated
deriving DecidableEq

/-- The Post produced from one Mastodon status, or `none` when the loop body
skips it (`mastodon.py` lines 94-141). -/
def mastView (st : MastStatus) : Option Post :=
  match st.created with
  | .unparsable => none
  | .parsed ts =>
    some { id := toString st.id
           content := stripHtml st.content
           created_at := mastNormalize ts
           platform := "mastodon"
           url := st.url }

/-- Outcome of the per-page item loop: `ret` is a function-level early
return (`return posts` inside the loop), `next` falls through to the
pagination step with the updated accumulator and count. -/
inductive LoopOut where
  | ret (posts : List Post)
  | next (posts : List Post) (collected : Nat)
deriving DecidableEq

/-- The shared inner item loop of both adapters (`bluesky.py` lines 82-128,
`mastodon.py` lines 94-147): skip unusable items, return early when an item
falls before `start`, skip items after `stop`, otherwise accept, and return
early once a truthy `limit` is reached. -/
def scanPage {α : Type} (view : α → Option Post) (start stop : Int) (limit : Option Nat) :
    List α → List Post → Nat → LoopOut
  | [], posts, collected => .next posts collected
  | item :: rest, posts, collected =>
    match view item with
    | none => scanPage view start stop limit rest posts collected
    | some p =>
      if p.created_at < start then .ret posts
      else if stop < p.created_at then scanPage view start stop limit rest posts collected
      else
        if pyTruthyNat limit && decide (limit.getD 0 ≤ collected + 1) then .ret (posts ++ [p])
        else scanPage view start stop limit rest (posts ++ [p]) (collected + 1)

/-- The same loop run over a flat item stream, ignoring page boundaries and
collapsing both early returns and normal fall-through to the final post
list.  Used as the page-boundary-free description of a fetch run. -/
def scanAll {α : Type} (view : α → Option Post) (start stop : Int) (limit : Option Nat) :
    List α → List Post → Nat → List Post
  | [], posts, _ => posts
  | item :: rest, posts, collected =>
    match view item with
    | none => scanAll view start stop limit rest posts collected
    | some p =>
      if p.created_at < start then posts
      else if stop < p.created_at then scanAll view start stop limit rest posts collected
      else
        if pyTruthyNat limit && decide (limit.getD 0 ≤ collected + 1) then posts ++ [p]
        else scanAll view start stop limit rest (posts ++ [p]) (collected + 1)

/-- Python truthiness of the Bluesky continuation cursor
(`if not cursor: break`, `bluesky.py` lines 131-133). -/
def cursorTruthy : Option String → Bool
  | none => false
  | some s => s != ""

/-- One response of the Bluesky `get_author_feed` endpoint. -/
structure BskyPage where
  feed : List BskyItem
  cursor : Option String
deriving DecidableEq

/-- Result of a fetch run: the returned posts together with the log of page
requests issued, each recording the continuation cursor sent and the
per-request `limit` parameter. -/
structure FetchRun (κ : Type) where
  posts : List Post
  requests : List (Option κ × Int)
deriving DecidableEq

/-- The per-request `limit` parameter of Bluesky,
`min(50, limit - collected) if limit else 50` (`bluesky.py` line 75). -/
def bskyBatchLimit (limit : Option Nat) (collected : Nat) : Int :=
  if pyTruthyNat limit then min 50 ((limit.getD 0 : Int) - collected) else 50

/-- The pagination loop of `BlueskyPlatform.get_posts` (`bluesky.py` lines
71-135) against a remote service whose successive responses are `pages`
(a request beyond the end of `pages` is answered by an empty feed).  The
loop breaks on an empty feed and on a falsy response cursor. -/
def bskyRun (handle : String) (start stop : Int) (limit : Option Nat) :
    List BskyPage → Option String → List Post → Nat → List (Option String × Int) →
    FetchRun String
  | [], cursor, posts, collected, log =>
    ⟨posts, log ++ [(cursor, bskyBatchLimit limit collected)]⟩
  | page :: rest, cursor, posts, collected, log =>
    if page.feed.isEmpty then ⟨posts, log ++ [(cursor, bskyBatchLimit limit collected)]⟩
    else
      match scanPage (bskyView handle) start stop limit page.feed posts collected with
      | .ret ps => ⟨ps, log ++ [(cursor, bskyBatchLimit limit collected)]⟩
      | .next ps c =>
        if cursorTruthy page.cursor then
          bskyRun handle start stop limit rest page.cursor ps c
            (log ++ [(cursor, bskyBatchLimit limit collected)])
        else ⟨ps, log ++ [(cursor, bskyBatchLimit limit collected)]⟩

/-- `BlueskyPlatform.get_posts` (`bluesky.py` lines 47-135): raises
(`Except.error`) when not authenticated (lines 63-64), otherwise runs the
pagination loop from an absent cursor and empty accumulators. -/
def bskyGetPosts (authed : Bool) (handle : String) (start stop : Int) (limit : Option Nat)
    (pages : List BskyPage) : Except String (FetchRun String) :=
  if authed then .ok (bskyRun handle start stop limit pages none [] 0 [])
  else .error "Not authenticated with Bluesky"

/-- The per-request `limit` parameter of Mastodon,
`min(40, limit - collected) if limit else 40` (`mastodon.py` line 81). -/
def mastBatchLimit (limit : Option Nat) (collected : Nat) : Int :=
  if pyTruthyNat limit then min 40 ((limit.getD 0 : Int) - collected) else 40

/-- `statuses[-1]["id"]` (`mastodon.py` line 151). -/
def mastLastId (statuses : List MastStatus) : Option Nat :=
  statuses.getLast?.map MastStatus.id

/-- The pagination loop of `MastodonPlatform.get_posts` (`mastodon.py` lines
79-155): the loop breaks only on an empty response; after a non-empty page
it always continues with `max_id` set to the last status id of that page. -/
def mastRun (start stop : Int) (limit : Option Nat) :
    List (List MastStatus) → Option Nat → List Post → Nat → List (Option Nat × Int) →
    FetchRun Nat
  | [], maxId, posts, collected, log =>
    ⟨posts, log ++ [(maxId, mastBatchLimit limit collected)]⟩
  | statuses :: rest, maxId, posts, collected, log =>
    if statuses.isEmpty then ⟨posts, log ++ [(maxId, mastBatchLimit limit collected)]⟩
    else
      match scanPage mastView start stop limit statuses posts collected with
      | .ret ps => ⟨ps, log ++ [(maxId, mastBatchLimit limit collected)]⟩
      | .next ps c =>
        mastRun start stop limit rest (mastLastId statuses) ps c
          (log ++ [(maxId, mastBatchLimit limit collected)])

/-- `MastodonPlatform.get_posts` (`mastodon.py` lines 58-155): raises when
not authenticated (lines 71-72), otherwise runs the pagination loop. -/
def mastGetPosts (authed : Bool) (start stop : Int) (limit : Option Nat)
    (pages : List (List MastStatus)) : Except String (FetchRun Nat) :=
  if authed then .ok (mastRun start stop limit pages none [] 0 [])
  else .error "Not authenticated with Mastodon"

/-- The item stream a Bluesky run actually consumes: pages are concatenated
up to and including the first page that is empty or carries a falsy cursor
(the pagination-break conditions of `bluesky.py` lines 79-80 and 131-133). -/
def bskyConsumed : List BskyPage → List BskyItem
  | [] => []
  | page :: rest =>
    if page.feed.isEmpty then []
    else page.feed ++ (if cursorTruthy page.cursor then bskyConsumed rest else [])

/-- The item stream a Mastodon run actually consumes: pages are concatenated
up to the first empty page (`mastodon.py` lines 91-92). -/
def mastConsumed : List (List MastStatus) → List MastStatus
  | [] => []
  | statuses :: rest => if statuses.isEmpty then [] else statuses ++ mastConsumed rest

/-- The normalized timestamps of the usable items of a stream, in feed
order. -/
def viewTs {α : Type} (view : α → Option Post) (items : List α) : List Int :=
  (items.filterMap view).map Post.created_at

/-- The in-range posts of a stream, in feed order: the posts of usable items
whose normalized timestamp lies in the closed interval. -/
def inRangePosts {α : Type} (view : α → Option Post) (start stop : Int)
    (items : List α) : List Post :=
  (items.filterMap view).filter (fun p => decide (start ≤ p.created_at) && decide (p.created_at ≤ stop))

/-- Non-increasing (reverse-chronological) sequence of timestamps. -/
def descTs : List Int → Bool
  | a :: b :: rest => decide (b ≤ a) && descTs (b :: rest)
  | _ => true

/-- The `if archive_file:` update of `base.py` lines 119-122: a truthy
archive path marks the result archived and records the path. -/
def applyArchiveInfo (archiveFile : Option String) (r : DeletionResult) : DeletionResult :=
  if pyTruthyStr archiveFile then { r with archived := true, archive_path := archiveFile }
  else r

/-- Observable outcome of one `bulk_delete_posts` call: the returned result
list plus, for call-tracking, the post ids passed to `delete_post` and to
`_archive_post`, in order. -/
structure BulkOut where
  results : List DeletionResult
  deleteCalls : List String
  archiveCalls : List String
deriving DecidableEq

/-- `BasePlatform.bulk_delete_posts` (`base.py` lines 91-126).  `deleteFn`
models `self.delete_post`: an `Except.error` is an exception raised by it,
which the loop body does not catch and therefore propagates, aborting the
batch.  `archiveFn` models `self._archive_post` (lines 128-166), which
catches its own errors internally and returns the written path, or `None`
on failure. -/
def bulkDeletePosts (deleteFn : String → Except String DeletionResult)
    (archiveFn : Post → String → Option String) :
    List Post → Bool → String → Except String BulkOut
  | [], _, _ => .ok ⟨[], [], []⟩
  | post :: rest, archiveBeforeDelete, archivePath =>
    match deleteFn post.id with
    | .error exc => .error exc
    | .ok result =>
      match bulkDeletePosts deleteFn archiveFn rest archiveBeforeDelete archivePath with
      | .error exc => .error exc
      | .ok out =>
        .ok ⟨applyArchiveInfo (if archiveBeforeDelete then archiveFn post archivePath else none)
               result :: out.results,
             post.id :: out.deleteCalls,
             (if archiveBeforeDelete then [post.id] else []) ++ out.archiveCalls⟩

/-- Observable outcome of `delete_posts_from_platform`: the returned list,
how many times `bulk_delete_posts` was invoked, and the post ids passed to
`delete_post` (all of which happen inside the bulk call). -/
structure SessionOut where
  results : List DeletionResult
  bulkCalls : Nat
  deleteCalls : List String
deriving DecidableEq

/-- `SocialScrubber.delete_posts_from_platform` (`cli.py` lines 126-167):
empty input returns `[]`; dry-run returns `[]` before any delete machinery;
with archiving enabled a failed `ensure_archive_directory` (modelled by
`ensureDirOk`) aborts with `[]`; otherwise the bulk deletion runs. -/
def deletePostsFromPlatform (deleteFn : String → Except String DeletionResult)
    (archiveFn : Post → String → Option String) (posts : List Post) (dryRun : Bool)
    (archiveBeforeDelete : Bool) (archivePath : String) (ensureDirOk : Bool) :
    Except String SessionOut :=
  if posts.isEmpty then .ok ⟨[], 0, []⟩
  else if dryRun then .ok ⟨[], 0, []⟩
  else if archiveBeforeDelete && !ensureDirOk then .ok ⟨[], 0, []⟩
  else
    match bulkDeletePosts deleteFn archiveFn posts archiveBeforeDelete archivePath with
    | .error exc => .error exc
    | .ok out => .ok ⟨out.results, 1, out.deleteCalls⟩

/-- `BlueskyPlatform.delete_post` (`bluesky.py` lines 141-183).  `remote`
models `self.client.app.bsky.feed.post.delete(rkey)`: `none` is a normal
return, `some e` an exception with message `e` (captured by the handler of
lines 178-183). -/
def bskyDeletePost (authed : Bool) (remote : String → Option String)
    (post_id : String) : DeletionResult :=
  if !authed then
    { post_id := post_id, success := false, error := some "Not authenticated with Bluesky" }
  else if (splitOnChar '/' post_id.data).length < 2 then
    { post_id := post_id, success := false, error := some "Invalid post URI format" }
  else
    match remote (lastSegment post_id) with
    | some exc => { post_id := post_id, success := false, error := some exc }
    | none => { post_id := post_id, success := true }

/-- `MastodonPlatform.delete_post` (`mastodon.py` lines 161-182).  `remote`
models `self.client.status_delete(post_id)`. -/
def mastDeletePost (authed : Bool) (remote : String → Option String)
    (post_id : String) : DeletionResult :=
  if !authed then
    { post_id := post_id, success := false, error := some "Not authenticated with Mastodon" }
  else
    match remote post_id with
    | some exc => { post_id := post_id, success := false, error := some exc }
    | none => { post_id := post_id, success := true }

/-- `TwitterPlatform.delete_post` (`twitter.py` lines 51-64). -/
def twitterDeletePost (post_id : String) : DeletionResult :=
  { post_id := post_id, success := false,
    error := some "Twitter/X integration not yet implemented" }

/-- The `DeletionResult` shape invariant of spec section 3: an error message
is present exactly on failure, and an archive path is set exactly when the
post was archived. -/
def resultInvariant (r : DeletionResult) : Prop :=
  (r.error.isSome = true ↔ r.success = false) ∧
  (r.archive_path.isSome = true ↔ r.archived = true)

/-- An early return inside a page determines the whole stream scan: items
after the page are never reached. -/
theorem scanPage_ret_scanAll {α : Type} (view : α → Option Post) (s e : Int) (l : Option Nat) :
    ∀ (items : List α) (acc : List Post) (c : Nat) (ps : List Post) (more : List α),
      scanPage view s e l items acc c = .ret ps →
      scanAll view s e l (items ++ more) acc c = ps := by
  intro items
  induction items with
  | nil => intro acc c ps more h; simp [scanPage] at h
  | cons item rest ih =>
    intro acc c ps more h
    simp only [scanPage] at h
    simp only [List.cons_append, scanAll]
    cases hv : view item with
    | none =>
      simp only [hv] at h ⊢
      exact ih acc c ps more h
    | some p =>
      simp only [hv] at h ⊢
      split_ifs at h ⊢ with h1 h2 h3
      · cases h; rfl
      · exact ih acc c ps more h
      · cases h; rfl
      · exact ih _ _ ps more h

/-- A page falling through to pagination composes with the scan of the
remaining stream. -/
theorem scanPage_next_scanAll {α : Type} (view : α → Option Post) (s e : Int) (l : Option Nat) :
    ∀ (items : List α) (acc : List Post) (c : Nat) (ps : List Post) (c2 : Nat) (more : List α),
      scanPage view s e l items acc c = .next ps c2 →
      scanAll view s e l (items ++ more) acc c = scanAll view s e l more ps c2 := by
  intro items
  induction items with
  | nil =>
    intro acc c ps c2 more h
    simp only [scanPage] at h
    cases h
    rfl
  | cons item rest ih =>
    intro acc c ps c2 more h
    simp only [scanPage] at h
    simp only [List.cons_append, scanAll]
    cases hv : view item with
    | none =>
      simp only [hv] at h ⊢
      exact ih acc c ps c2 more h
    | some p =>
      simp only [hv] at h ⊢
      split_ifs at h ⊢ with h1 h2 h3
      · exact ih acc c ps c2 more h
      · exact ih _ _ ps c2 more h

/-- The posts returned by a Bluesky run are the stream scan of the consumed
items: page boundaries do not affect the post list. -/
theorem bskyRun_posts_eq (handle : String) (s e : Int) (l : Option Nat) :
    ∀ (pages : List BskyPage) (cursor : Option String) (acc : List Post) (c : Nat)
      (log : List (Option String × Int)),
      (bskyRun handle s e l pages cursor acc c log).posts
        = scanAll (bskyView handle) s e l (bskyConsumed pages) acc c := by
  intro pages
  induction pages with
  | nil => intro cursor acc c log; simp [bskyRun, bskyConsumed, scanAll]
  | cons page rest ih =>
    intro cursor acc c log
    simp only [bskyRun, bskyConsumed]
    by_cases hfe : page.feed.isEmpty
    · simp [hfe, scanAll]
    · simp only [hfe]
      cases hscan : scanPage (bskyView handle) s e l page.feed acc c with
      | ret ps =>
        simp only [Bool.false_eq_true, if_false]
        rw [scanPage_ret_scanAll _ _ _ _ _ _ _ _ _ hscan]
      | next ps c2 =>
        simp only [Bool.false_eq_true, if_false]
        rw [scanPage_next_scanAll _ _ _ _ _ _ _ _ _ _ hscan]
        by_cases hcur : cursorTruthy page.cursor
        · simp only [hcur, if_true]
          exact ih page.cursor ps c2 _
        · simp only [hcur, Bool.false_eq_true, if_false]
          simp [scanAll]

/-- The posts returned by a Mastodon run are the stream scan of the
consumed items. -/
theorem mastRun_posts_eq (s e : Int) (l : Option Nat) :
    ∀ (pages : List (List MastStatus)) (maxId : Option Nat) (acc : List Post) (c : Nat)
      (log : List (Option Nat × Int)),
      (mastRun s e l pages maxId acc c log).posts
        = scanAll mastView s e l (mastConsumed pages) acc c := by
  intro pages
  induction pages with
  | nil => intro maxId acc c log; simp [mastRun, mastConsumed, scanAll]
  | cons statuses rest ih =>
    intro maxId acc c log
    simp only [mastRun, mastConsumed]
    by_cases hfe : statuses.isEmpty
    · simp [hfe, scanAll]
    · simp only [hfe]
      cases hscan : scanPage mastView s e l statuses acc c with
      | ret ps =>
        simp only [Bool.false_eq_true, if_false]
        rw [scanPage_ret_scanAll _ _ _ _ _ _ _ _ _ hscan]
      | next ps c2 =>
        simp only [Bool.false_eq_true, if_false]
        rw [scanPage_next_scanAll _ _ _ _ _ _ _ _ _ _ hscan]
        exact ih (mastLastId statuses) ps c2 _

/-- Every post a stream scan produces is either already in the accumulator
or has its timestamp inside the closed window. -/
theorem scanAll_mem {α : Type} (view : α → Option Post) (s e : Int) (l : Option Nat) :
    ∀ (items : List α) (acc : List Post) (c : Nat) (p : Post),
      p ∈ scanAll view s e l items acc c →
      p ∈ acc ∨ (s ≤ p.created_at ∧ p.created_at ≤ e) := by
  intro items
  induction items with
  | nil => intro acc c p hp; exact Or.inl (by simpa [scanAll] using hp)
  | cons item rest ih =>
    intro acc c p hp
    simp only [scanAll] at hp
    cases hv : view item with
    | none =>
      simp only [hv] at hp
      exact ih acc c p hp
    | some q =>
      simp only [hv] at hp
      split_ifs at hp with h1 h2 h3
      · exact Or.inl hp
      · exact ih acc c p hp
      · rcases List.mem_append.mp hp with hL | hR
        · exact Or.inl hL
        · right
          rcases List.mem_singleton.mp hR with rfl
          exact ⟨le_of_not_lt h1, le_of_not_lt h2⟩
      · rcases ih _ _ p hp with hL | hin
        · rcases List.mem_append.mp hL with hL2 | hR2
          · exact Or.inl hL2
          · right
            rcases List.mem_singleton.mp hR2 with rfl
            exact ⟨le_of_not_lt h1, le_of_not_lt h2⟩
        · exact Or.inr hin

/-- The inner loop treats `limit=0` exactly like `limit=None`: both are
falsy in every check. -/
theorem scanPage_limit_zero {α : Type} (view : α → Option Post) (s e : Int) :
    ∀ (items : List α) (acc : List Post) (c : Nat),
      scanPage view s e (some 0) items acc c = scanPage view s e none items acc c := by
  intro items
  induction items with
  | nil => intro acc c; rfl
  | cons item rest ih =>
    intro acc c
    simp only [scanPage]
    cases hv : view item with
    | none => simp only [hv]; exact ih acc c
    | some p => simp [hv, pyTruthyNat, ih]

/-- The Bluesky pagination loop treats `limit=0` exactly like
`limit=None`. -/
theorem bskyRun_limit_zero (handle : String) (s e : Int) :
    ∀ (pages : List BskyPage) (cursor : Option String) (acc : List Post) (c : Nat)
      (log : List (Option String × Int)),
      bskyRun handle s e (some 0) pages cursor acc c log
        = bskyRun handle s e none pages cursor acc c log := by
  intro pages
  induction pages with
  | nil => intro cursor acc c log; simp [bskyRun, bskyBatchLimit, pyTruthyNat]
  | cons page rest ih =>
    intro cursor acc c log
    by_cases hfe : page.feed.isEmpty
    · simp [bskyRun, hfe, bskyBatchLimit, pyTruthyNat]
    · simp only [bskyRun, hfe, Bool.false_eq_true, if_false]
      rw [scanPage_limit_zero]
      cases hscan : scanPage (bskyView handle) s e none page.feed acc c with
      | ret ps => simp [hscan, bskyBatchLimit, pyTruthyNat]
      | next ps c2 =>
        by_cases hcur : cursorTruthy page.cursor
        · simp [hscan, hcur, bskyBatchLimit, pyTruthyNat, ih]
        · simp [hscan, hcur, bskyBatchLimit, pyTruthyNat]

/-- The Mastodon pagination loop treats `limit=0` exactly like
`limit=None`. -/
theorem mastRun_limit_zero (s e : Int) :
    ∀ (pages : List (List MastStatus)) (maxId : Option Nat) (acc : List Post) (c : Nat)
      (log : List (Option Nat × Int)),
      mastRun s e (some 0) pages maxId acc c log = mastRun s e none pages maxId acc c log := by
  intro pages
  induction pages with
  | nil => intro maxId acc c log; simp [mastRun, mastBatchLimit, pyTruthyNat]
  | cons statuses rest ih =>
    intro maxId acc c log
    by_cases hfe : statuses.isEmpty
    · simp [mastRun, hfe, mastBatchLimit, pyTruthyNat]
    · simp only [mastRun, hfe, Bool.false_eq_true, if_false]
      rw [scanPage_limit_zero]
      cases hscan : scanPage mastView s e none statuses acc c with
      | ret ps => simp [hscan, mastBatchLimit, pyTruthyNat]
      | next ps c2 => simp [hscan, mastBatchLimit, pyTruthyNat, ih]

theorem viewTs_append {α : Type} (view : α → Option Post) (a b : List α) :
    viewTs view (a ++ b) = viewTs view a ++ viewTs view b := by
  simp [viewTs, List.filterMap_append]

theorem inRangePosts_append {α : Type} (view : α → Option Post) (s e : Int) (a b : List α) :
    inRangePosts view s e (a ++ b) = inRangePosts view s e a ++ inRangePosts view s e b := by
  simp [inRangePosts, List.filterMap_append, List.filter_append]

theorem descTs_tail (a : Int) (l : List Int) (h : descTs (a :: l) = true) : descTs l = true := by
  cases l with
  | nil => rfl
  | cons b rest => simp only [descTs, Bool.and_eq_true] at h; exact h.2

theorem descTs_head_le (a : Int) (l : List Int) (h : descTs (a :: l) = true) :
    ∀ t ∈ l, t ≤ a := by
  induction l generalizing a with
  | nil => intro t ht; simp at ht
  | cons b rest ih =>
    intro t ht
    simp only [descTs, Bool.and_eq_true, decide_eq_true_eq] at h
    rcases List.mem_cons.mp ht with rfl | htr
    · exact h.1
    · exact le_trans (ih b (by simpa [descTs] using h.2) t htr) h.1

/-- A stream whose usable timestamps all lie before the window start
contributes no in-range posts. -/
theorem inRangePosts_eq_nil {α : Type} (view : α → Option Post) (s e : Int) (items : List α)
    (h : ∀ t ∈ viewTs view items, t < s) : inRangePosts view s e items = [] := by
  unfold inRangePosts
  rw [List.filter_eq_nil_iff]
  intro p hp
  have hlt : p.created_at < s := h _ (List.mem_map_of_mem Post.created_at hp)
  simp [not_le.mpr hlt]

/-- When every usable timestamp of a stream is at or after the window start
and a truthy limit is not reached inside it, the loop accepts exactly the
in-range posts of the stream and falls through to pagination. -/
theorem scanPage_no_exit {α : Type} (view : α → Option Post) (s e : Int) (l : Option Nat) :
    ∀ (items : List α) (acc : List Post) (c : Nat),
      (∀ t ∈ viewTs view items, s ≤ t) →
      (pyTruthyNat l = true → c + (inRangePosts view s e items).length < l.getD 0) →
      scanPage view s e l items acc c
        = .next (acc ++ inRangePosts view s e items)
            (c + (inRangePosts view s e items).length) := by
  intro items
  induction items with
  | nil => intro acc c h4 h5; simp [scanPage, inRangePosts]
  | cons item rest ih =>
    intro acc c h4 h5
    simp only [scanPage]
    cases hv : view item with
    | none =>
      have hts : viewTs view (item :: rest) = viewTs view rest := by
        simp [viewTs, List.filterMap_cons, hv]
      have hr : inRangePosts view s e (item :: rest) = inRangePosts view s e rest := by
        simp [inRangePosts, List.filterMap_cons, hv]
      rw [hts] at h4
      rw [hr] at h5 ⊢
      simp only [hv]
      exact ih acc c h4 h5
    | some p =>
      have hts : viewTs view (item :: rest) = p.created_at :: viewTs view rest := by
        simp [viewTs, List.filterMap_cons, hv]
      have hsp : s ≤ p.created_at := h4 p.created_at (by rw [hts]; exact List.mem_cons_self _ _)
      have h4r : ∀ t ∈ viewTs view rest, s ≤ t := by
        intro t ht; exact h4 t (by rw [hts]; exact List.mem_cons_of_mem _ ht)
      simp only [hv]
      rw [if_neg (not_lt.mpr hsp)]
      by_cases h2 : e < p.created_at
      · have hr : inRangePosts view s e (item :: rest) = inRangePosts view s e rest := by
          simp [inRangePosts, List.filterMap_cons, hv, not_le.mpr h2]
        rw [hr] at h5 ⊢
        rw [if_pos h2]
        exact ih acc c h4r h5
      · have hr : inRangePosts view s e (item :: rest) = p :: inRangePosts view s e rest := by
          simp [inRangePosts, List.filterMap_cons, hv, hsp, not_lt.mp h2]
        rw [hr] at h5 ⊢
        rw [if_neg h2]
        have hcond : (pyTruthyNat l && decide (l.getD 0 ≤ c + 1)) = false := by
          cases htr : pyTruthyNat l with
          | false => simp
          | true =>
            have := h5 htr
            simp only [List.length_cons] at this
            simp only [Bool.true_and, decide_eq_false_iff_not, not_le]
            omega
        rw [hcond]
        simp only [Bool.false_eq_true, if_false]
        have h5r : pyTruthyNat l = true →
            (c + 1) + (inRangePosts view s e rest).length < l.getD 0 := by
          intro htr
          have := h5 htr
          simp only [List.length_cons] at this
          omega
        rw [ih (acc ++ [p]) (c + 1) h4r h5r]
        congr 1
        · simp
        · simp only [List.length_cons]; omega

/-- When the first below-start usable item of the stream is `bad`, the loop
returns early with exactly the in-range posts collected before it. -/
theorem scanPage_first_bad {α : Type} (view : α → Option Post) (s e : Int) (l : Option Nat) :
    ∀ (pre : List α) (bad : α) (rest2 : List α) (pbad : Post) (acc : List Post) (c : Nat),
      view bad = some pbad → pbad.created_at < s →
      (∀ t ∈ viewTs view pre, s ≤ t) →
      (pyTruthyNat l = true → c + (inRangePosts view s e pre).length < l.getD 0) →
      scanPage view s e l (pre ++ bad :: rest2) acc c
        = .ret (acc ++ inRangePosts view s e pre) := by
  intro pre
  induction pre with
  | nil =>
    intro bad rest2 pbad acc c hbad hlt _ _
    simp only [List.nil_append, scanPage, hbad]
    rw [if_pos hlt]
    simp [inRangePosts]
  | cons item rest ih =>
    intro bad rest2 pbad acc c hbad hlt h4 h5
    simp only [List.cons_append, scanPage]
    cases hv : view item with
    | none =>
      have hts : viewTs view (item :: rest) = viewTs view rest := by
        simp [viewTs, List.filterMap_cons, hv]
      have hr : inRangePosts view s e (item :: rest) = inRangePosts view s e rest := by
        simp [inRangePosts, List.filterMap_cons, hv]
      rw [hts] at h4
      rw [hr] at h5 ⊢
      simp only [hv]
      exact ih bad rest2 pbad acc c hbad hlt h4 h5
    | some p =>
      have hts : viewTs view (item :: rest) = p.created_at :: viewTs view rest := by
        simp [viewTs, List.filterMap_cons, hv]
      have hsp : s ≤ p.created_at := h4 p.created_at (by rw [hts]; exact List.mem_cons_self _ _)
      have h4r : ∀ t ∈ viewTs view rest, s ≤ t := by
        intro t ht; exact h4 t (by rw [hts]; exact List.mem_cons_of_mem _ ht)
      simp only [hv]
      rw [if_neg (not_lt.mpr hsp)]
      by_cases h2 : e < p.created_at
      · have hr : inRangePosts view s e (item :: rest) = inRangePosts view s e rest := by
          simp [inRangePosts, List.filterMap_cons, hv, not_le.mpr h2]
        rw [hr] at h5 ⊢
        rw [if_pos h2]
        exact ih bad rest2 pbad acc c hbad hlt h4r h5
      · have hr : inRangePosts view s e (item :: rest) = p :: inRangePosts view s e rest := by
          simp [inRangePosts, List.filterMap_cons, hv, hsp, not_lt.mp h2]
        rw [hr] at h5 ⊢
        rw [if_neg h2]
        have hcond : (pyTruthyNat l && decide (l.getD 0 ≤ c + 1)) = false := by
          cases htr : pyTruthyNat l with
          | false => simp
          | true =>
            have := h5 htr
            simp only [List.length_cons] at this
            simp only [Bool.true_and, decide_eq_false_iff_not, not_le]
            omega
        rw [hcond]
        simp only [Bool.false_eq_true, if_false]
        have h5r : pyTruthyNat l = true →
            (c + 1) + (inRangePosts view s e rest).length < l.getD 0 := by
          intro htr
          have := h5 htr
          simp only [List.length_cons] at this
          omega
        have hrec := ih bad rest2 pbad (acc ++ [p]) (c + 1) hbad hlt h4r h5r
        rw [show (acc ++ [p]) ++ inRangePosts view s e rest
              = acc ++ p :: inRangePosts view s e rest by simp] at hrec
        exact hrec

/-- Early-exit behaviour of the Bluesky pagination loop: when the first
below-start usable item sits in the page after `pages1` (all of which are
non-empty with truthy cursors and contain only at-or-after-start usable
timestamps, without reaching a truthy limit), the run returns the in-range
posts collected before that item and issues no request beyond that page. -/
theorem bskyRun_early (handle : String) (s e : Int) (l : Option Nat) :
    ∀ (pages1 : List BskyPage) (pre : List BskyItem) (bad : BskyItem) (rest2 : List BskyItem)
      (cur : Option String) (pages2 : List BskyPage) (pbad : Post) (cursor : Option String)
      (acc : List Post) (c : Nat) (log : List (Option String × Int)),
      (∀ pg ∈ pages1, pg.feed ≠ [] ∧ cursorTruthy pg.cursor = true) →
      bskyView handle bad = some pbad →
      pbad.created_at < s →
      (∀ t ∈ viewTs (bskyView handle) ((pages1.map BskyPage.feed).join ++ pre), s ≤ t) →
      (pyTruthyNat l = true →
        c + (inRangePosts (bskyView handle) s e
              ((pages1.map BskyPage.feed).join ++ pre)).length < l.getD 0) →
      (bskyRun handle s e l (pages1 ++ ⟨pre ++ bad :: rest2, cur⟩ :: pages2) cursor acc c log).posts
          = acc ++ inRangePosts (bskyView handle) s e ((pages1.map BskyPage.feed).join ++ pre)
      ∧ (bskyRun handle s e l (pages1 ++ ⟨pre ++ bad :: rest2, cur⟩ :: pages2)
            cursor acc c log).requests.length = log.length + pages1.length + 1 := by
  intro pages1
  induction pages1 with
  | nil =>
    intro pre bad rest2 cur pages2 pbad cursor acc c log _ hbad hlt h4 h5
    simp only [List.map_nil, List.join_nil, List.nil_append] at h4 h5
    simp only [List.nil_append, bskyRun]
    have hne : (pre ++ bad :: rest2).isEmpty = false := by cases pre <;> rfl
    simp only [hne, Bool.false_eq_true, if_false]
    rw [scanPage_first_bad (bskyView handle) s e l pre bad rest2 pbad acc c hbad hlt h4 h5]
    simp
  | cons pg rest1 ih =>
    intro pre bad rest2 cur pages2 pbad cursor acc c log h1 hbad hlt h4 h5
    have hfeed : pg.feed ≠ [] := (h1 pg (List.mem_cons_self _ _)).1
    have hcur : cursorTruthy pg.cursor = true := (h1 pg (List.mem_cons_self _ _)).2
    have h1r : ∀ x ∈ rest1, x.feed ≠ [] ∧ cursorTruthy x.cursor = true := by
      intro x hx; exact h1 x (List.mem_cons_of_mem _ hx)
    have hsplit : (((pg :: rest1).map BskyPage.feed).join ++ pre)
        = pg.feed ++ ((rest1.map BskyPage.feed).join ++ pre) := by
      simp [List.join, List.append_assoc]
    rw [hsplit] at h4 h5
    have h4pg : ∀ t ∈ viewTs (bskyView handle) pg.feed, s ≤ t := by
      intro t ht
      exact h4 t (by rw [viewTs_append]; exact List.mem_append_left _ ht)
    have h4r : ∀ t ∈ viewTs (bskyView handle) ((rest1.map BskyPage.feed).join ++ pre), s ≤ t := by
      intro t ht
      exact h4 t (by rw [viewTs_append]; exact List.mem_append_right _ ht)
    have hlen : (inRangePosts (bskyView handle) s e
          (pg.feed ++ ((rest1.map BskyPage.feed).join ++ pre))).length
        = (inRangePosts (bskyView handle) s e pg.feed).length
          + (inRangePosts (bskyView handle) s e ((rest1.map BskyPage.feed).join ++ pre)).length := by
      rw [inRangePosts_append]; simp
    have h5pg : pyTruthyNat l = true →
        c + (inRangePosts (bskyView handle) s e pg.feed).length < l.getD 0 := by
      intro htr
      have := h5 htr
      rw [hlen] at this
      omega
    have h5r : pyTruthyNat l = true →
        (c + (inRangePosts (bskyView handle) s e pg.feed).length)
          + (inRangePosts (bskyView handle) s e
              ((rest1.map BskyPage.feed).join ++ pre)).length < l.getD 0 := by
      intro htr
      have := h5 htr
      rw [hlen] at this
      omega
    have hne : pg.feed.isEmpty = false := by
      cases hh : pg.feed with
      | nil => exact absurd hh hfeed
      | cons a b => rfl
    have hscan := scanPage_no_exit (bskyView handle) s e l pg.feed acc c h4pg h5pg
    simp only [List.cons_append, bskyRun, hne, Bool.false_eq_true, if_false, hscan, hcur,
      if_true]
    have hrec := ih pre bad rest2 cur pages2 pbad pg.cursor
      (acc ++ inRangePosts (bskyView handle) s e pg.feed)
      (c + (inRangePosts (bskyView handle) s e pg.feed).length)
      (log ++ [(cursor, bskyBatchLimit l c)]) h1r hbad hlt h4r h5r
    constructor
    · exact hrec.1.trans (by simp [hsplit, inRangePosts_append, List.append_assoc])
    · exact hrec.2.trans (by
        simp only [List.length_append, List.length_cons, List.length_nil]
        omega)

/-- Early-exit behaviour of the Mastodon pagination loop, analogous to the
Bluesky case (the loop only stops paging on an empty response, so the
condition on `pages1` is non-emptiness). -/
theorem mastRun_early (s e : Int) (l : Option Nat) :
    ∀ (pages1 : List (List MastStatus)) (pre : List MastStatus) (bad : MastStatus)
      (rest2 : List MastStatus) (pages2 : List (List MastStatus)) (pbad : Post)
      (maxId : Option Nat) (acc : List Post) (c : Nat) (log : List (Option Nat × Int)),
      (∀ st ∈ pages1, st ≠ []) →
      mastView bad = some pbad →
      pbad.created_at < s →
      (∀ t ∈ viewTs mastView (pages1.join ++ pre), s ≤ t) →
      (pyTruthyNat l = true →
        c + (inRangePosts mastView s e (pages1.join ++ pre)).length < l.getD 0) →
      (mastRun s e l (pages1 ++ (pre ++ bad :: rest2) :: pages2) maxId acc c log).posts
          = acc ++ inRangePosts mastView s e (pages1.join ++ pre)
      ∧ (mastRun s e l (pages1 ++ (pre ++ bad :: rest2) :: pages2)
            maxId acc c log).requests.length = log.length + pages1.length + 1 := by
  intro pages1
  induction pages1 with
  | nil =>
    intro pre bad rest2 pages2 pbad maxId acc c log _ hbad hlt h4 h5
    simp only [List.join_nil, List.nil_append] at h4 h5
    simp only [List.nil_append, mastRun]
    have hne : (pre ++ bad :: rest2).isEmpty = false := by cases pre <;> rfl
    simp only [hne, Bool.false_eq_true, if_false]
    rw [scanPage_first_bad mastView s e l pre bad rest2 pbad acc c hbad hlt h4 h5]
    simp
  | cons pg rest1 ih =>
    intro pre bad rest2 pages2 pbad maxId acc c log h1 hbad hlt h4 h5
    have hfeed : pg ≠ [] := h1 pg (List.mem_cons_self _ _)
    have h1r : ∀ x ∈ rest1, x ≠ [] := by
      intro x hx; exact h1 x (List.mem_cons_of_mem _ hx)
    have hsplit : ((pg :: rest1).join ++ pre) = pg ++ (rest1.join ++ pre) := by
      simp [List.join, List.append_assoc]
    rw [hsplit] at h4 h5
    have h4pg : ∀ t ∈ viewTs mastView pg, s ≤ t := by
      intro t ht
      exact h4 t (by rw [viewTs_append]; exact List.mem_append_left _ ht)
    have h4r : ∀ t ∈ viewTs mastView (rest1.join ++ pre), s ≤ t := by
      intro t ht
      exact h4 t (by rw [viewTs_append]; exact List.mem_append_right _ ht)
    have hlen : (inRangePosts mastView s e (pg ++ (rest1.join ++ pre))).length
        = (inRangePosts mastView s e pg).length
          + (inRangePosts mastView s e (rest1.join ++ pre)).length := by
      rw [inRangePosts_append]; simp
    have h5pg : pyTruthyNat l = true →
        c + (inRangePosts mastView s e pg).length < l.getD 0 := by
      intro htr
      have := h5 htr
      rw [hlen] at this
      omega
    have h5r : pyTruthyNat l = true →
        (c + (inRangePosts mastView s e pg).length)
          + (inRangePosts mastView s e (rest1.join ++ pre)).length < l.getD 0 := by
      intro htr
      have := h5 htr
      rw [hlen] at this
      omega
    have hne : pg.isEmpty = false := by
      cases hh : pg with
      | nil => exact absurd hh hfeed
      | cons a b => rfl
    have hscan := scanPage_no_exit mastView s e l pg acc c h4pg h5pg
    simp only [List.cons_append, mastRun, hne, Bool.false_eq_true, if_false, hscan]
    have hrec := ih pre bad rest2 pages2 pbad (mastLastId pg)
      (acc ++ inRangePosts mastView s e pg)
      (c + (inRangePosts mastView s e pg).length)
      (log ++ [(maxId, mastBatchLimit l c)]) h1r hbad hlt h4r h5r
    constructor
    · exact hrec.1.trans (by simp [hsplit, inRangePosts_append, List.append_assoc])
    · exact hrec.2.trans (by
        simp only [List.length_append, List.length_cons, List.length_nil]
        omega)

/-- With a positive limit and a reverse-chronological stream of usable
timestamps, the loop returns the accumulator followed by the first
`L - c` in-range posts of the stream, in feed order. -/
theorem scanAll_take {α : Type} (view : α → Option Post) (s e : Int) (L : Nat) :
    ∀ (items : List α) (acc : List Post) (c : Nat),
      descTs (viewTs view items) = true → c < L →
      scanAll view s e (some L) items acc c
        = acc ++ (inRangePosts view s e items).take (L - c) := by
  intro items
  induction items with
  | nil => intro acc c _ _; simp [scanAll, inRangePosts]
  | cons item rest ih =>
    intro acc c hmono hc
    simp only [scanAll]
    cases hv : view item with
    | none =>
      have hts : viewTs view (item :: rest) = viewTs view rest := by
        simp [viewTs, List.filterMap_cons, hv]
      have hr : inRangePosts view s e (item :: rest) = inRangePosts view s e rest := by
        simp [inRangePosts, List.filterMap_cons, hv]
      rw [hts] at hmono
      rw [hr]
      simp only [hv]
      exact ih acc c hmono hc
    | some p =>
      have hts : viewTs view (item :: rest) = p.created_at :: viewTs view rest := by
        simp [viewTs, List.filterMap_cons, hv]
      rw [hts] at hmono
      have hmr : descTs (viewTs view rest) = true := descTs_tail _ _ hmono
      simp only [hv]
      by_cases h1 : p.created_at < s
      · rw [if_pos h1]
        have hnil : inRangePosts view s e (item :: rest) = [] := by
          apply inRangePosts_eq_nil
          intro t ht
          rw [hts] at ht
          rcases List.mem_cons.mp ht with rfl | htr
          · exact h1
          · exact lt_of_le_of_lt (descTs_head_le _ _ hmono t htr) h1
        rw [hnil]
        simp
      · rw [if_neg h1]
        by_cases h2 : e < p.created_at
        · rw [if_pos h2]
          have hr : inRangePosts view s e (item :: rest) = inRangePosts view s e rest := by
            simp [inRangePosts, List.filterMap_cons, hv, not_le.mpr h2]
          rw [hr]
          exact ih acc c hmr hc
        · rw [if_neg h2]
          have hr : inRangePosts view s e (item :: rest) = p :: inRangePosts view s e rest := by
            simp [inRangePosts, List.filterMap_cons, hv, not_lt.mp h1, not_lt.mp h2]
          rw [hr]
          by_cases h3 : L ≤ c + 1
          · have hcond : (pyTruthyNat (some L) && decide ((some L).getD 0 ≤ c + 1)) = true := by
              simp only [pyTruthyNat, Option.getD_some, Bool.and_eq_true, bne_iff_ne,
                ne_eq, decide_eq_true_eq]
              omega
            rw [if_pos hcond]
            rw [show L - c = 1 by omega]
            simp
          · have hcond : (pyTruthyNat (some L) && decide ((some L).getD 0 ≤ c + 1)) = false := by
              simp only [pyTruthyNat, Option.getD_some, Bool.and_eq_false_iff,
                decide_eq_false_iff_not, not_le]
              right
              omega
            rw [hcond]
            simp only [Bool.false_eq_true, if_false]
            rw [ih (acc ++ [p]) (c + 1) hmr (by omega)]
            rw [List.append_assoc]
            congr 1
            rw [show L - c = (L - (c + 1)) + 1 by omega]
            simp [List.take_succ_cons]

/-- When the delete function returns normally on every id (as all three
shipped adapters' `delete_post` implementations do), the bulk loop produces
one result per input post in input order, each combining that post's own
delete outcome with its own archive outcome, and calls delete once per post
and archive once per post when archiving is enabled. -/
theorem bulk_total_spec (deleteFn : String → Except String DeletionResult)
    (deleteFn2 : String → DeletionResult) (archiveFn : Post → String → Option String)
    (hdf : ∀ i, deleteFn i = .ok (deleteFn2 i)) :
    ∀ (posts : List Post) (flag : Bool) (path : String),
      bulkDeletePosts deleteFn archiveFn posts flag path
        = .ok ⟨posts.map (fun p =>
                 applyArchiveInfo (if flag then archiveFn p path else none) (deleteFn2 p.id)),
               posts.map Post.id,
               if flag then posts.map Post.id else []⟩ := by
  intro posts
  induction posts with
  | nil => intro flag path; simp [bulkDeletePosts]
  | cons p rest ih =>
    intro flag path
    simp only [bulkDeletePosts, hdf, ih]
    cases flag <;> simp

/-- Claim C1: every `Post` in the list returned by a successful `get_posts`
call has `created_at` satisfying `start <= created_at <= end`, both bounds
inclusive, for both the Bluesky and the Mastodon adapter. -/
theorem c1_posts_within_window :
    (∀ (authed : Bool) (handle : String) (s e : Int) (l : Option Nat)
       (pages : List BskyPage) (out : FetchRun String) (p : Post),
       bskyGetPosts authed handle s e l pages = .ok out → p ∈ out.posts →
       s ≤ p.created_at ∧ p.created_at ≤ e)
  ∧ (∀ (authed : Bool) (s e : Int) (l : Option Nat)
       (pages : List (List MastStatus)) (out : FetchRun Nat) (p : Post),
       mastGetPosts authed s e l pages = .ok out → p ∈ out.posts →
       s ≤ p.created_at ∧ p.created_at ≤ e) := by
  constructor
  · intro authed handle s e l pages out p hout hp
    cases authed with
    | false => simp [bskyGetPosts] at hout
    | true =>
      simp only [bskyGetPosts, if_true, Except.ok.injEq] at hout
      subst hout
      rw [bskyRun_posts_eq] at hp
      rcases scanAll_mem (bskyView handle) s e l (bskyConsumed pages) [] 0 p hp with hL | hin
      · simp at hL
      · exact hin
  · intro authed s e l pages out p hout hp
    cases authed with
    | false => simp [mastGetPosts] at hout
    | true =>
      simp only [mastGetPosts, if_true, Except.ok.injEq] at hout
      subst hout
      rw [mastRun_posts_eq] at hp
      rcases scanAll_mem mastView s e l (mastConsumed pages) [] 0 p hp with hL | hin
      · simp at hL
      · exact hin

/-- Witness for C1 at a concrete one-page Bluesky feed. -/
theorem c1_posts_within_window_witness :
    (0 : Int) ≤ (5 : Int) ∧ (5 : Int) ≤ (10 : Int) := by
  have h := c1_posts_within_window.1 true "h" 0 10 none
    [⟨[.valid "a/b" "hi" ⟨5, none⟩], none⟩]
    ⟨[⟨"a/b", "hi", 5, "bluesky", some "https://bsky.app/profile/h/post/b"⟩], [(none, 50)]⟩
    ⟨"a/b", "hi", 5, "bluesky", some "https://bsky.app/profile/h/post/b"⟩
    rfl (by simp)
  exact h

/-- Claim C10: calling `get_posts` with `limit=0` returns exactly the same
result as calling it with `limit=None` (the zero value applies no cap), for
both adapters, on any feed and window. -/
theorem c10_zero_limit_is_no_limit :
    (∀ (authed : Bool) (handle : String) (s e : Int) (pages : List BskyPage),
       bskyGetPosts authed handle s e (some 0) pages
         = bskyGetPosts authed handle s e none pages)
  ∧ (∀ (authed : Bool) (s e : Int) (pages : List (List MastStatus)),
       mastGetPosts authed s e (some 0) pages = mastGetPosts authed s e none pages) := by
  constructor
  · intro authed handle s e pages
    cases authed with
    | false => rfl
    | true => simp only [bskyGetPosts, if_true, bskyRun_limit_zero]
  · intro authed s e pages
    cases authed with
    | false => rfl
    | true => simp only [mastGetPosts, if_true, mastRun_limit_zero]

/-- Claim C8: with the dry-run flag enabled, `delete_posts_from_platform`
returns the empty result list without invoking `bulk_delete_posts`
(`bulkCalls = 0`) and hence without any `delete_post` call
(`deleteCalls = []`), regardless of the posts passed in. -/
theorem c8_dry_run_gate :
    ∀ (deleteFn : String → Except String DeletionResult)
      (archiveFn : Post → String → Option String) (posts : List Post)
      (archiveBeforeDelete : Bool) (archivePath : String) (ensureDirOk : Bool),
      deletePostsFromPlatform deleteFn archiveFn posts true archiveBeforeDelete
        archivePath ensureDirOk = .ok ⟨[], 0, []⟩ := by
  intro deleteFn archiveFn posts archiveBeforeDelete archivePath ensureDirOk
  unfold deletePostsFromPlatform
  by_cases h : posts.isEmpty <;> simp [h]

/-- Claim C9: every `DeletionResult` produced by a public operation -- the
delete of each adapter (including the unauthenticated branch and the
Twitter stub) and `bulk_delete_posts` over any such delete -- satisfies the
invariant: an error message is present iff `success` is false, and an
archive path is set iff `archived` is true. -/
theorem c9_deletion_result_invariant :
    (∀ (authed : Bool) (remote : String → Option String) (pid : String),
      resultInvariant (bskyDeletePost authed remote pid))
  ∧ (∀ (authed : Bool) (remote : String → Option String) (pid : String),
      resultInvariant (mastDeletePost authed remote pid))
  ∧ (∀ pid : String, resultInvariant (twitterDeletePost pid))
  ∧ (∀ (deleteFn : String → Except String DeletionResult)
       (deleteFn2 : String → DeletionResult) (archiveFn : Post → String → Option String)
       (posts : List Post) (flag : Bool) (path : String) (out : BulkOut),
       (∀ i, deleteFn i = .ok (deleteFn2 i)) →
       (∀ i, resultInvariant (deleteFn2 i)) →
       bulkDeletePosts deleteFn archiveFn posts flag path = .ok out →
       ∀ r ∈ out.results, resultInvariant r) := by
  refine ⟨?_, ?_, ?_, ?_⟩
  · intro authed remote pid
    unfold bskyDeletePost resultInvariant
    cases authed with
    | false => simp
    | true =>
      by_cases h : (splitOnChar '/' pid.data).length < 2
      · simp [h]
      · simp only [h, Bool.not_true, Bool.false_eq_true, if_false, if_pos]
        cases hr : remote (lastSegment pid) <;> simp [h]
  · intro authed remote pid
    unfold mastDeletePost resultInvariant
    cases authed with
    | false => simp
    | true => cases hr : remote pid <;> simp
  · intro pid
    unfold twitterDeletePost resultInvariant
    simp
  · intro deleteFn deleteFn2 archiveFn posts flag path out hdf hinv hbulk
    rw [bulk_total_spec deleteFn deleteFn2 archiveFn hdf] at hbulk
    rcases hbulk with ⟨rfl⟩
    intro r hr
    simp only [List.mem_map] at hr
    obtain ⟨p, _, rfl⟩ := hr
    unfold applyArchiveInfo
    by_cases ha : pyTruthyStr (if flag then archiveFn p path else none) = true
    · rw [if_pos ha]
      refine ⟨(hinv p.id).1, ?_⟩
      cases harc : (if flag then archiveFn p path else none) with
      | none => rw [harc] at ha; simp [pyTruthyStr] at ha
      | some sVal => simp [harc]
    · rw [if_neg ha]
      exact hinv p.id

/-- Witness for C9 at concrete inputs: the Twitter stub and a one-post bulk
run over an always-succeeding delete. -/
theorem c9_deletion_result_invariant_witness :
    resultInvariant (twitterDeletePost "x")
    ∧ resultInvariant ⟨"p", true, none, false, none⟩ := by
  constructor
  · exact c9_deletion_result_invariant.2.2.1 "x"
  · have h := c9_deletion_result_invariant.2.2.2
      (fun i => .ok ⟨i, true, none, false, none⟩) (fun i => ⟨i, true, none, false, none⟩)
      (fun _ _ => none) [⟨"p", "c", 0, "test", none⟩] false "a"
      ⟨[⟨"p", true, none, false, none⟩], ["p"], []⟩
      (fun _ => rfl) (fun i => by simp [resultInvariant]) rfl
    exact h ⟨"p", true, none, false, none⟩ (by simp)

/-- Claim C2 counterexample: a Bluesky item fetched with timestamp
wall-clock 43200 and UTC offset 18000 (a `+05:00`-style offset) is stored
with `created_at = 43200`, the wall-clock reading, while the instant
converted to UTC is 25200; the stored value is not the UTC conversion the
claim asserts for every adapter. -/
theorem c2_utc_counterexample :
    (bskyGetPosts true "h" 0 100000 none
        [⟨[.valid "at://x/app.bsky.feed.post/r1" "hi" ⟨43200, some 18000⟩], none⟩]).map
      (fun r => r.posts.map Post.created_at) = Except.ok [(43200 : Int)]
  ∧ utcInstant ⟨43200, some 18000⟩ = 25200
  ∧ (43200 : Int) ≠ 25200 := by
  refine ⟨rfl, rfl, by decide⟩

/-- Claim C2 amended: the Mastodon adapter stores the timestamp converted
to UTC with the offset discarded (`mastNormalize` agrees with the specified
UTC instant on every input), but the Bluesky adapter stores the wall-clock
reading with the offset merely discarded and without conversion, so its
stored value equals the UTC instant only when the offset is zero.  Stated on
the normalization functions and through the full `get_posts` pipeline on a
one-item feed. -/
theorem c2_normalization_amended :
    (∀ ts : RawTS, mastNormalize ts = utcInstant ts)
  ∧ (∀ ts : RawTS, bskyNormalize ts = ts.wall)
  ∧ (∀ (s e : Int) (handle uri text : String) (ts : RawTS) (out : FetchRun String),
      s ≤ ts.wall → ts.wall ≤ e →
      bskyGetPosts true handle s e none [⟨[.valid uri text ts], none⟩] = .ok out →
      out.posts.map Post.created_at = [ts.wall])
  ∧ (∀ (s e : Int) (idN : Nat) (content : String) (url : Option String) (ts : RawTS)
       (out : FetchRun Nat),
      s ≤ mastNormalize ts → mastNormalize ts ≤ e →
      mastGetPosts true s e none [[⟨idN, content, url, .parsed ts⟩]] = .ok out →
      out.posts.map Post.created_at = [utcInstant ts]) := by
  have hmu : ∀ ts : RawTS, mastNormalize ts = utcInstant ts := by
    intro ts
    cases hos : ts.offset with
    | none => simp [mastNormalize, utcInstant, hos]
    | some o => simp [mastNormalize, utcInstant, hos]
  refine ⟨hmu, fun ts => rfl, ?_, ?_⟩
  · intro s e handle uri text ts out hs he hout
    simp only [bskyGetPosts, if_true, Except.ok.injEq] at hout
    subst hout
    rw [bskyRun_posts_eq]
    simp [bskyConsumed, cursorTruthy, scanAll, bskyView, bskyNormalize,
      not_lt.mpr hs, not_lt.mpr he, pyTruthyNat]
  · intro s e idN content url ts out hs he hout
    simp only [mastGetPosts, if_true, Except.ok.injEq] at hout
    subst hout
    rw [mastRun_posts_eq]
    rw [← hmu ts]
    simp [mastConsumed, scanAll, mastView, not_lt.mpr hs, not_lt.mpr he, pyTruthyNat]

/-- Witness for the amended C2 at concrete offset-carrying timestamps. -/
theorem c2_normalization_amended_witness :
    (([⟨"u", "t", (7 : Int), "bluesky", some "https://bsky.app/profile/h/post/u"⟩] :
        List Post).map Post.created_at = [(7 : Int)])
    ∧ (([⟨"1", "c", (4 : Int), "mastodon", none⟩] : List Post).map Post.created_at
        = [(4 : Int)]) := by
  constructor
  · exact c2_normalization_amended.2.2.1 0 10 "h" "u" "t" ⟨7, some 3600⟩
      ⟨[⟨"u", "t", 7, "bluesky", some "https://bsky.app/profile/h/post/u"⟩], [(none, 50)]⟩
      (by decide) (by decide) rfl
  · exact c2_normalization_amended.2.2.2 0 10 1 "c" none ⟨7, some 3⟩
      ⟨[⟨"1", "c", 4, "mastodon", none⟩], [(none, 40), (some 1, 40)]⟩
      (by decide) (by decide) rfl

/-- Claim C3: as soon as the fetch encounters a usable item with
`created_at < start` (all earlier usable items being at or after `start`
and a truthy limit not yet reached), `get_posts` returns exactly the
in-range posts collected before that item -- no item at or after it in feed
order contributes -- and issues no page request beyond the page containing
it, for both adapters. -/
theorem c3_early_exit :
    (∀ (handle : String) (s e : Int) (l : Option Nat) (pages1 : List BskyPage)
       (pre : List BskyItem) (bad : BskyItem) (rest2 : List BskyItem) (cur : Option String)
       (pages2 : List BskyPage) (pbad : Post) (out : FetchRun String),
       (∀ pg ∈ pages1, pg.feed ≠ [] ∧ cursorTruthy pg.cursor = true) →
       bskyView handle bad = some pbad →
       pbad.created_at < s →
       (∀ t ∈ viewTs (bskyView handle) ((pages1.map BskyPage.feed).join ++ pre), s ≤ t) →
       (pyTruthyNat l = true →
         (inRangePosts (bskyView handle) s e
             ((pages1.map BskyPage.feed).join ++ pre)).length < l.getD 0) →
       bskyGetPosts true handle s e l (pages1 ++ ⟨pre ++ bad :: rest2, cur⟩ :: pages2)
         = .ok out →
       out.posts = inRangePosts (bskyView handle) s e ((pages1.map BskyPage.feed).join ++ pre)
         ∧ out.requests.length = pages1.length + 1)
  ∧ (∀ (s e : Int) (l : Option Nat) (pages1 : List (List MastStatus))
       (pre : List MastStatus) (bad : MastStatus) (rest2 : List MastStatus)
       (pages2 : List (List MastStatus)) (pbad : Post) (out : FetchRun Nat),
       (∀ st ∈ pages1, st ≠ []) →
       mastView bad = some pbad →
       pbad.created_at < s →
       (∀ t ∈ viewTs mastView (pages1.join ++ pre), s ≤ t) →
       (pyTruthyNat l = true →
         (inRangePosts mastView s e (pages1.join ++ pre)).length < l.getD 0) →
       mastGetPosts true s e l (pages1 ++ (pre ++ bad :: rest2) :: pages2) = .ok out →
       out.posts = inRangePosts mastView s e (pages1.join ++ pre)
         ∧ out.requests.length = pages1.length + 1) := by
  constructor
  · intro handle s e l pages1 pre bad rest2 cur pages2 pbad out h1 hbad hlt h4 h5 hout
    simp only [bskyGetPosts, if_true, Except.ok.injEq] at hout
    subst hout
    have h := bskyRun_early handle s e l pages1 pre bad rest2 cur pages2 pbad none [] 0 []
      h1 hbad hlt h4 (by intro htr; simpa using h5 htr)
    exact ⟨by simpa using h.1, by simpa using h.2⟩
  · intro s e l pages1 pre bad rest2 pages2 pbad out h1 hbad hlt h4 h5 hout
    simp only [mastGetPosts, if_true, Except.ok.injEq] at hout
    subst hout
    have h := mastRun_early s e l pages1 pre bad rest2 pages2 pbad none [] 0 []
      h1 hbad hlt h4 (by intro htr; simpa using h5 htr)
    exact ⟨by simpa using h.1, by simpa using h.2⟩

/-- Witness for C3 at concrete one-page feeds whose first item already
falls before the window start. -/
theorem c3_early_exit_witness :
    ((⟨[], [(none, 50)]⟩ : FetchRun String).posts
        = inRangePosts (bskyView "h") 3 10 ((([] : List BskyPage).map BskyPage.feed).join ++ []))
    ∧ (⟨[], [(none, 50)]⟩ : FetchRun String).requests.length = 1
    ∧ ((⟨[], [(none, 40)]⟩ : FetchRun Nat).posts
        = inRangePosts mastView 3 10 (([] : List (List MastStatus)).join ++ []))
    ∧ (⟨[], [(none, 40)]⟩ : FetchRun Nat).requests.length = 1 := by
  have hb := c3_early_exit.1 "h" 3 10 none [] [] (.valid "u" "t" ⟨1, none⟩) [] none []
    ⟨"u", "t", 1, "bluesky", some "https://bsky.app/profile/h/post/u"⟩
    ⟨[], [(none, 50)]⟩
    (by simp) rfl (by decide) (by simp [viewTs]) (by simp [pyTruthyNat]) rfl
  have hm := c3_early_exit.2 3 10 none [] [] ⟨5, "x", none, .parsed ⟨1, none⟩⟩ [] []
    ⟨"5", "x", 1, "mastodon", none⟩
    ⟨[], [(none, 40)]⟩
    (by simp) rfl (by decide) (by simp [viewTs]) (by simp [pyTruthyNat]) rfl
  exact ⟨hb.1, by simpa using hb.2, hm.1, by simpa using hm.2⟩

/-- Claim C4 counterexample.  First: on a one-page feed with timestamps
5, 1, 4 and window [3, 10] with limit 2, the Bluesky fetch returns only the
post at 5, while the first two in-range items of the feed are those at 5
and 4 -- the early exit on the item at 1 drops a later in-range item, so
the result is not "the first limit in-range items".  Second: with limit 0
and one in-range item the fetch returns 1 post, violating
"length at most limit" (Python treats 0 as no limit). -/
theorem c4_limit_counterexample :
    ((bskyGetPosts true "h" 3 10 (some 2)
        [⟨[.valid "u1" "a" ⟨5, none⟩, .valid "u2" "b" ⟨1, none⟩, .valid "u3" "c" ⟨4, none⟩],
          none⟩]).map (fun r => r.posts.map Post.created_at) = Except.ok [(5 : Int)])
  ∧ ((inRangePosts (bskyView "h") 3 10
        (bskyConsumed [⟨[.valid "u1" "a" ⟨5, none⟩, .valid "u2" "b" ⟨1, none⟩,
          .valid "u3" "c" ⟨4, none⟩], none⟩])).map Post.created_at = [(5 : Int), (4 : Int)])
  ∧ ((bskyGetPosts true "h" 3 10 (some 0) [⟨[.valid "u1" "a" ⟨5, none⟩], none⟩]).map
        (fun r => r.posts.length) = Except.ok 1)
  ∧ ¬((1 : Nat) ≤ 0) := by
  refine ⟨rfl, rfl, rfl, by decide⟩

/-- Claim C4 amended: for a positive limit `L` and a reverse-chronological
feed (the usable timestamps of the consumed stream are non-increasing),
`get_posts` returns exactly the first `L` in-range items in feed order (all
of them when fewer exist), and the returned length is at most `L`, for both
adapters.  With limit 0 no cap applies, and on a non-monotone feed the
early exit may drop later in-range items. -/
theorem c4_limit_amended :
    (∀ (handle : String) (s e : Int) (L : Nat) (pages : List BskyPage) (out : FetchRun String),
      0 < L →
      descTs (viewTs (bskyView handle) (bskyConsumed pages)) = true →
      bskyGetPosts true handle s e (some L) pages = .ok out →
      out.posts = (inRangePosts (bskyView handle) s e (bskyConsumed pages)).take L
        ∧ out.posts.length ≤ L)
  ∧ (∀ (s e : Int) (L : Nat) (pages : List (List MastStatus)) (out : FetchRun Nat),
      0 < L →
      descTs (viewTs mastView (mastConsumed pages)) = true →
      mastGetPosts true s e (some L) pages = .ok out →
      out.posts = (inRangePosts mastView s e (mastConsumed pages)).take L
        ∧ out.posts.length ≤ L) := by
  constructor
  · intro handle s e L pages out hL hmono hout
    simp only [bskyGetPosts, if_true, Except.ok.injEq] at hout
    subst hout
    have h := bskyRun_posts_eq handle s e (some L) pages none [] 0 []
    rw [scanAll_take (bskyView handle) s e L (bskyConsumed pages) [] 0 hmono hL] at h
    refine ⟨by rw [h]; simp, ?_⟩
    rw [h]
    simp [List.length_take]
  · intro s e L pages out hL hmono hout
    simp only [mastGetPosts, if_true, Except.ok.injEq] at hout
    subst hout
    have h := mastRun_posts_eq s e (some L) pages none [] 0 []
    rw [scanAll_take mastView s e L (mastConsumed pages) [] 0 hmono hL] at h
    refine ⟨by rw [h]; simp, ?_⟩
    rw [h]
    simp [List.length_take]

/-- Witness for the amended C4 at a concrete reverse-chronological feed. -/
theorem c4_limit_amended_witness :
    ((⟨[⟨"u1", "a", 5, "bluesky", some "https://bsky.app/profile/h/post/u1"⟩],
        [(none, 1)]⟩ : FetchRun String).posts
      = (inRangePosts (bskyView "h") 3 10
          (bskyConsumed [⟨[.valid "u1" "a" ⟨5, none⟩, .valid "u2" "b" ⟨4, none⟩],
            none⟩])).take 1)
    ∧ (⟨[⟨"u1", "a", 5, "bluesky", some "https://bsky.app/profile/h/post/u1"⟩],
        [(none, 1)]⟩ : FetchRun String).posts.length ≤ 1 := by
  exact c4_limit_amended.1 "h" 3 10 1
    [⟨[.valid "u1" "a" ⟨5, none⟩, .valid "u2" "b" ⟨4, none⟩], none⟩]
    ⟨[⟨"u1", "a", 5, "bluesky", some "https://bsky.app/profile/h/post/u1"⟩], [(none, 1)]⟩
    (by decide) (by decide) rfl

/-- Claim C5 counterexample: over a feed split into two non-empty pages,
the Mastodon adapter issues three page requests, not two -- after consuming
the second page it always continues with the last status id as `max_id` and
only stops when the third request returns an empty page. -/
theorem c5_pagination_counterexample :
    ((mastGetPosts true 0 200 none [[⟨10, "x", none, .parsed ⟨100, none⟩⟩],
        [⟨5, "y", none, .parsed ⟨50, none⟩⟩]]).map (fun r => r.requests.length)
      = Except.ok 3)
  ∧ ¬((3 : Nat) = 2) := by
  refine ⟨rfl, by decide⟩

/-- Claim C5 amended: for a feed split across two pages, the Bluesky
adapter issues exactly two requests, the second carrying the cursor
returned by the first; the Mastodon adapter issues three requests, the
second carrying the continuation cursor of the first page (its last status
id) and the third carrying the second page's last id and receiving the
empty page that ends pagination. -/
theorem c5_pagination_amended :
    (∀ (handle : String) (s e : Int) (l : Option Nat) (pg1 pg2 : BskyPage)
       (ps1 : List Post) (k1 : Nat) (ps2 : List Post) (k2 : Nat),
       pg1.feed ≠ [] → cursorTruthy pg1.cursor = true →
       pg2.feed ≠ [] → cursorTruthy pg2.cursor = false →
       scanPage (bskyView handle) s e l pg1.feed [] 0 = .next ps1 k1 →
       scanPage (bskyView handle) s e l pg2.feed ps1 k1 = .next ps2 k2 →
       (bskyRun handle s e l [pg1, pg2] none [] 0 []).requests
         = [(none, bskyBatchLimit l 0), (pg1.cursor, bskyBatchLimit l k1)])
  ∧ (∀ (s e : Int) (l : Option Nat) (st1 st2 : List MastStatus)
       (ps1 : List Post) (k1 : Nat) (ps2 : List Post) (k2 : Nat),
       st1 ≠ [] → st2 ≠ [] →
       scanPage mastView s e l st1 [] 0 = .next ps1 k1 →
       scanPage mastView s e l st2 ps1 k1 = .next ps2 k2 →
       (mastRun s e l [st1, st2] none [] 0 []).requests
         = [(none, mastBatchLimit l 0), (mastLastId st1, mastBatchLimit l k1),
            (mastLastId st2, mastBatchLimit l k2)]) := by
  constructor
  · intro handle s e l pg1 pg2 ps1 k1 ps2 k2 h1 hc1 h2 hc2 hs1 hs2
    have hne1 : pg1.feed.isEmpty = false := by
      cases hh : pg1.feed with
      | nil => exact absurd hh h1
      | cons a b => rfl
    have hne2 : pg2.feed.isEmpty = false := by
      cases hh : pg2.feed with
      | nil => exact absurd hh h2
      | cons a b => rfl
    simp [bskyRun, hne1, hne2, hs1, hs2, hc1, hc2]
  · intro s e l st1 st2 ps1 k1 ps2 k2 h1 h2 hs1 hs2
    have hne1 : st1.isEmpty = false := by
      cases hh : st1 with
      | nil => exact absurd hh h1
      | cons a b => rfl
    have hne2 : st2.isEmpty = false := by
      cases hh : st2 with
      | nil => exact absurd hh h2
      | cons a b => rfl
    simp [mastRun, hne1, hne2, hs1, hs2]

/-- Witness for the amended C5 at concrete two-page feeds. -/
theorem c5_pagination_amended_witness :
    ((bskyRun "h" 0 10 none [⟨[.valid "u1" "a" ⟨5, none⟩], some "c1"⟩,
        ⟨[.valid "u2" "b" ⟨4, none⟩], none⟩] none [] 0 []).requests
      = [(none, 50), (some "c1", 50)])
    ∧ ((mastRun 0 200 none [[⟨10, "x", none, .parsed ⟨100, none⟩⟩],
        [⟨5, "y", none, .parsed ⟨50, none⟩⟩]] none [] 0 []).requests
      = [(none, 40), (some 10, 40), (some 5, 40)]) := by
  constructor
  · exact c5_pagination_amended.1 "h" 0 10 none
      ⟨[.valid "u1" "a" ⟨5, none⟩], some "c1"⟩ ⟨[.valid "u2" "b" ⟨4, none⟩], none⟩
      [⟨"u1", "a", 5, "bluesky", some "https://bsky.app/profile/h/post/u1"⟩] 1
      [⟨"u1", "a", 5, "bluesky", some "https://bsky.app/profile/h/post/u1"⟩,
       ⟨"u2", "b", 4, "bluesky", some "https://bsky.app/profile/h/post/u2"⟩] 2
      (by decide) rfl (by decide) rfl rfl rfl
  · exact c5_pagination_amended.2 0 200 none
      [⟨10, "x", none, .parsed ⟨100, none⟩⟩] [⟨5, "y", none, .parsed ⟨50, none⟩⟩]
      [⟨"10", "x", 100, "mastodon", none⟩] 1
      [⟨"10", "x", 100, "mastodon", none⟩, ⟨"5", "y", 50, "mastodon", none⟩] 2
      (by decide) (by decide) rfl rfl

/-- Claim C6 counterexample: `bulk_delete_posts` contains no exception
handler around the `delete_post` call; with a delete function that raises,
a two-post batch aborts with the exception instead of returning two
results. -/
theorem c6_short_circuit_counterexample :
    bulkDeletePosts (fun _ => .error "boom") (fun _ _ => none)
      [⟨"p1", "a", 1, "test", none⟩, ⟨"p2", "b", 2, "test", none⟩] false "arch"
      = .error "boom" := rfl

/-- Claim C6 amended: `bulk_delete_posts` itself does not guard against
`delete_post` raising (a raise aborts the batch), but for any delete
function that returns normally on every id -- which all shipped adapters'
`delete_post` implementations do, capturing remote failures into a failed
`DeletionResult` -- the batch returns exactly one result per input post, in
input order, each reflecting that post's own delete and archive outcome,
and calls delete once per post. -/
theorem c6_batch_isolation_amended :
    ∀ (deleteFn : String → Except String DeletionResult)
      (deleteFn2 : String → DeletionResult) (archiveFn : Post → String → Option String)
      (posts : List Post) (flag : Bool) (path : String) (out : BulkOut),
      (∀ i, deleteFn i = .ok (deleteFn2 i)) →
      bulkDeletePosts deleteFn archiveFn posts flag path = .ok out →
      out.results.length = posts.length
      ∧ out.deleteCalls = posts.map Post.id
      ∧ out.results = posts.map (fun p =>
          applyArchiveInfo (if flag then archiveFn p path else none) (deleteFn2 p.id)) := by
  intro deleteFn deleteFn2 archiveFn posts flag path out hdf hbulk
  rw [bulk_total_spec deleteFn deleteFn2 archiveFn hdf] at hbulk
  rcases hbulk with ⟨rfl⟩
  exact ⟨by simp, rfl, rfl⟩

/-- Witness for the amended C6 at a concrete one-post batch. -/
theorem c6_batch_isolation_amended_witness :
    ((⟨[⟨"p", true, none, true, some "f"⟩], ["p"], ["p"]⟩ : BulkOut).results.length = 1)
    ∧ (⟨[⟨"p", true, none, true, some "f"⟩], ["p"], ["p"]⟩ : BulkOut).deleteCalls = ["p"] := by
  have h := c6_batch_isolation_amended (fun i => .ok ⟨i, true, none, false, none⟩)
    (fun i => ⟨i, true, none, false, none⟩) (fun _ _ => some "f")
    [⟨"p", "c", 0, "test", none⟩] true "arch"
    ⟨[⟨"p", true, none, true, some "f"⟩], ["p"], ["p"]⟩
    (fun _ => rfl) rfl
  exact ⟨h.1, h.2.1⟩

/-- Claim C7: with archiving enabled and a total delete function, a post
whose archive write fails (falsy archive path) still has its delete
attempted (its id is passed to delete, in order), its result is exactly its
own delete outcome with `archived = false` and no `archive_path`, and the
batch still produces one result per post. -/
theorem c7_archive_failure_isolated :
    ∀ (deleteFn : String → Except String DeletionResult)
      (deleteFn2 : String → DeletionResult) (archiveFn : Post → String → Option String)
      (posts : List Post) (path : String) (out : BulkOut) (k : Nat)
      (hk : k < posts.length),
      (∀ i, deleteFn i = .ok (deleteFn2 i)) →
      (∀ i, (deleteFn2 i).archived = false ∧ (deleteFn2 i).archive_path = none) →
      bulkDeletePosts deleteFn archiveFn posts true path = .ok out →
      pyTruthyStr (archiveFn (posts.get ⟨k, hk⟩) path) = false →
      out.results.length = posts.length
      ∧ out.deleteCalls = posts.map Post.id
      ∧ out.results[k]? = some (deleteFn2 (posts.get ⟨k, hk⟩).id)
      ∧ (deleteFn2 (posts.get ⟨k, hk⟩).id).archived = false
      ∧ (deleteFn2 (posts.get ⟨k, hk⟩).id).archive_path = none := by
  intro deleteFn deleteFn2 archiveFn posts path out k hk hdf hclean hbulk ha
  rw [bulk_total_spec deleteFn deleteFn2 archiveFn hdf] at hbulk
  rcases hbulk with ⟨rfl⟩
  refine ⟨by simp, rfl, ?_, (hclean _).1, (hclean _).2⟩
  rw [List.getElem?_map, List.getElem?_eq_getElem hk]
  simp only [applyArchiveInfo]
  simp
  intro hcontra
  rw [show posts[k] = posts.get ⟨k, hk⟩ from rfl] at hcontra
  rw [ha] at hcontra
  simp at hcontra

/-- Witness for C7 at a concrete one-post batch whose archive write
fails. -/
theorem c7_archive_failure_isolated_witness :
    ((⟨[⟨"p", true, none, false, none⟩], ["p"], ["p"]⟩ : BulkOut).results.length = 1)
    ∧ (⟨[⟨"p", true, none, false, none⟩], ["p"], ["p"]⟩ : BulkOut).results[0]?
        = some ⟨"p", true, none, false, none⟩ := by
  have h := c7_archive_failure_isolated (fun i => .ok ⟨i, true, none, false, none⟩)
    (fun i => ⟨i, true, none, false, none⟩) (fun _ _ => none)
    [⟨"p", "c", 0, "test", none⟩] "arch"
    ⟨[⟨"p", true, none, false, none⟩], ["p"], ["p"]⟩ 0 (by decide)
    (fun _ => rfl) (fun i => ⟨rfl, rfl⟩) rfl rfl
  exact ⟨h.1, h.2.2.1⟩
